import Mathlib

/-!
# RuntimeClass overhead defaulting and validation

A shallow embedding of `pkg/apis/node/v1beta1/defaults.go` (`SetDefaults_Overhead`)
and of the validation entry points exercised by
`pkg/apis/node/validation/validation_test.go`.

Go maps are embedded as association lists together with an explicit "absent" (nil)
state.  The order in which a `range` loop visits a map is not fixed by the language,
so every loop takes a `RangeOrder`, a function that picks the visiting order.
A write into a nil map is a run-time panic in Go; `ResourceList.set` returns it as an
error value, so that the absence of the panic is a theorem and not an assumption.
-/

namespace NodeOverhead

/-! ## Data model -/

/-- The Go type `v1.ResourceName`, a string. -/
abbrev ResourceName := String

/-- Modelled from the spec: the type `resource.Quantity` is declared outside the
files at hand.  The spec describes it as an arbitrary-precision signed numeric value
with value semantics; `value` is the number it denotes, counted in the smallest unit
the quantity can express. -/
structure Quantity where
  value : Int
  deriving DecidableEq, Repr

namespace Quantity

/-- The zero value of the Go type, the quantity that renders as "0". -/
def zero : Quantity := ⟨0⟩

/-- The method `Quantity.Copy` followed by the dereference at its call sites:
an independent quantity with the same value. -/
def Copy (q : Quantity) : Quantity := ⟨q.value⟩

end Quantity

/-- The run-time faults a Go program can raise in the code embedded here. -/
inductive GoPanic where
  | assignmentToEntryInNilMap
  deriving DecidableEq, Repr

instance instDecidableEqExcept {ε α : Type} [DecidableEq ε] [DecidableEq α] :
    DecidableEq (Except ε α)
  | .ok a, .ok b => if h : a = b then isTrue (by rw [h]) else isFalse (by intro h2; cases h2; exact h rfl)
  | .error a, .error b =>
    if h : a = b then isTrue (by rw [h]) else isFalse (by intro h2; cases h2; exact h rfl)
  | .ok _, .error _ => isFalse (by intro h; cases h)
  | .error _, .ok _ => isFalse (by intro h; cases h)

/-- First entry stored under `key` in an association list. -/
def lookupEntry : List (ResourceName × Quantity) → ResourceName → Option Quantity
  | [], _ => none
  | (k, v) :: es, key => if k = key then some v else lookupEntry es key

/-- Store `value` under `key`: replace the entry when the key is there, add one
otherwise. -/
def storeEntry : List (ResourceName × Quantity) → ResourceName → Quantity →
    List (ResourceName × Quantity)
  | [], key, value => [(key, value)]
  | (k, v) :: es, key, value =>
    if k = key then (k, value) :: es else (k, v) :: storeEntry es key value

/-- The Go type `v1.ResourceList`, `map[ResourceName]resource.Quantity`.
A Go map is either nil (`absent`) or an allocated table (`present`), possibly
with no entries. -/
inductive ResourceList where
  | absent
  | present (entries : List (ResourceName × Quantity))
  deriving DecidableEq, Repr

namespace ResourceList

/-- The expression `make(v1.ResourceList)`. -/
def make : ResourceList := present []

/-- The entries a `range` loop runs over; a nil map has none. -/
def entries : ResourceList → List (ResourceName × Quantity)
  | absent => []
  | present es => es

/-- The keys of the map. -/
def keys (m : ResourceList) : List ResourceName := m.entries.map Prod.fst

/-- The two-result read `v, ok := m[key]`; reading a nil map finds nothing. -/
def get (m : ResourceList) (key : ResourceName) : Option Quantity :=
  lookupEntry m.entries key

/-- The one-result read `m[key]`: the zero value when the key is missing. -/
def index (m : ResourceList) (key : ResourceName) : Quantity :=
  (m.get key).getD Quantity.zero

/-- The assignment `m[key] = value`; it panics on a nil map. -/
def set : ResourceList → ResourceName → Quantity → Except GoPanic ResourceList
  | absent, _, _ => .error .assignmentToEntryInNilMap
  | present es, key, value => .ok (present (storeEntry es key value))

/-- The test `m == nil`. -/
def isNil : ResourceList → Bool
  | absent => true
  | present _ => false

/-- A Go map holds each key once. -/
def WellFormed (m : ResourceList) : Prop := m.keys.Nodup

instance (m : ResourceList) : Decidable m.WellFormed :=
  inferInstanceAs (Decidable (m.keys.Nodup))

/-- Two values denote the same map: both nil or both allocated, with the same
value under every key. -/
def SameMap (m₁ m₂ : ResourceList) : Prop :=
  m₁.isNil = m₂.isNil ∧ ∀ key, m₁.get key = m₂.get key

end ResourceList

/-- The Go type `v1.ResourceRequirements`. -/
structure ResourceRequirements where
  Limits : ResourceList
  Requests : ResourceList
  deriving DecidableEq, Repr

/-- The Go type `v1beta1.Overhead`; `PodFixed` is a pointer and may be nil. -/
structure Overhead where
  PodFixed : Option ResourceRequirements
  deriving DecidableEq, Repr

/-- The order in which one `range` loop visits the entries of a map: any
rearrangement of the entries. -/
structure RangeOrder where
  visit : List (ResourceName × Quantity) → List (ResourceName × Quantity)
  perm : ∀ es, (visit es).Perm es

namespace RangeOrder

/-- Visit the entries in the order they are stored. -/
def stored : RangeOrder := ⟨fun es => es, fun es => List.Perm.refl es⟩

/-- Visit the entries in the opposite order. -/
def reversed : RangeOrder := ⟨fun es => es.reverse, fun es => List.reverse_perm es⟩

end RangeOrder

/-! ## `SetDefaults_Overhead` -/

/-- The body shared by the two loops of `SetDefaults_Overhead`:
`if _, exists := target[key]; !exists { target[key] = *(value.Copy()) }`. -/
def copyIfMissing (target : ResourceList) (kv : ResourceName × Quantity) :
    Except GoPanic ResourceList :=
  if (target.get kv.1).isSome then .ok target else target.set kv.1 kv.2.Copy

/-- A loop `for key, value := range source { ... target ... }` with the body
`copyIfMissing`, visiting the entries `visited`. -/
def rangeCopy (visited : List (ResourceName × Quantity)) (target : ResourceList) :
    Except GoPanic ResourceList :=
  visited.foldlM copyIfMissing target

/-- The function `SetDefaults_Overhead` of `defaults.go`.  The object is updated in
place in Go; here the updated object is returned.  `first` and `second` give the
visiting orders of the two `range` loops. -/
def SetDefaults_Overhead (first second : RangeOrder) (obj : Overhead) :
    Except GoPanic Overhead :=
  match obj.PodFixed with
  | none =>
    -- `new(v1.ResourceRequirements)`: the zero value, both maps nil
    .ok (Overhead.mk (some (ResourceRequirements.mk .absent .absent)))
  | some podFixed =>
    let limits := if podFixed.Limits.isNil then ResourceList.make else podFixed.Limits
    let requests := if podFixed.Requests.isNil then ResourceList.make else podFixed.Requests
    match rangeCopy (first.visit limits.entries) requests with
    | .error p => .error p
    | .ok requests =>
      match rangeCopy (second.visit requests.entries) limits with
      | .error p => .error p
      | .ok limits => .ok (Overhead.mk (some (ResourceRequirements.mk limits requests)))

/-- Apply the defaulter to an object it has already been applied to. -/
def SetDefaults_Overhead_twice (first second first2 second2 : RangeOrder) (obj : Overhead) :
    Except GoPanic Overhead :=
  match SetDefaults_Overhead first second obj with
  | .error p => .error p
  | .ok obj1 => SetDefaults_Overhead first2 second2 obj1

/-! ## Validation

`validation.go` itself is not among the files at hand (its tests are); the
definitions below follow the written specification of the validators. -/

/-- The kinds of field error. -/
inductive ErrorType where
  | Required
  | Invalid
  | Immutable
  | NotSupported
  deriving DecidableEq, Repr

/-- Modelled from the spec: the `FieldError` record of the field-validation library,
`{Type, Field, Detail}`.  The first field is called `Type_` because `Type` is
reserved. -/
structure FieldError where
  Type_ : ErrorType
  Field : String
  Detail : String
  deriving DecidableEq, Repr

/-- A field path extended by a named child. -/
def fieldChild (path name : String) : String := path ++ "." ++ name

/-- A field path extended by a map key. -/
def fieldKey (path key : String) : String := path ++ "[" ++ key ++ "]"

/-- Modelled from the spec: the part of `metav1.ObjectMeta` that the tests set. -/
structure ObjectMeta where
  Name : String
  ClusterName : String
  ResourceVersion : String
  Labels : List (String × String)
  deriving DecidableEq, Repr

/-- Modelled from the spec: the type `node.RuntimeClass`,
`{ObjectMeta, Handler, Overhead}` with `Overhead` a pointer that may be nil. -/
structure RuntimeClass where
  ObjectMeta : ObjectMeta
  Handler : String
  Overhead : Option Overhead
  deriving DecidableEq, Repr

/-- Modelled from the spec: the primitives the validators call into and do not
own: object-metadata validation, the metadata update diff, the syntax checks on
handler and resource names, and the canonical text of a quantity. -/
structure Primitives where
  ValidateObjectMeta : ObjectMeta → List FieldError
  ValidateObjectMetaUpdate : ObjectMeta → ObjectMeta → List FieldError
  IsDNSLabel : String → Bool
  IsValidResourceName : ResourceName → Bool
  QuantityString : Quantity → String

/-- Modelled from the spec: the per-entry check of one resource list (section 4.2):
every entry must carry a valid resource name and a quantity that is not negative;
an absent map has no entries. -/
def validateResourceList (P : Primitives) (m : ResourceList) (path : String) :
    List FieldError :=
  m.entries.flatMap fun kv =>
    (if P.IsValidResourceName kv.1 then []
      else [FieldError.mk .Invalid (fieldKey path kv.1) "must be a valid resource name"]) ++
    (if kv.2.value < 0
      then [FieldError.mk .Invalid (fieldKey path kv.1) "must be greater than or equal to 0"]
      else [])

/-- Modelled from the spec: the cross-check of section 4.2: for every key present in
both maps the request must not exceed the limit; the error is on the Requests entry
and names the limit. -/
def validateRequestsWithinLimits (P : Primitives) (requests limits : ResourceList)
    (path : String) : List FieldError :=
  requests.entries.flatMap fun kv =>
    match limits.get kv.1 with
    | none => []
    | some limit =>
      if kv.2.value ≤ limit.value then []
      else [FieldError.mk .Invalid (fieldKey path kv.1)
        ("must be less than or equal to " ++ kv.1 ++ " limit of " ++ P.QuantityString limit)]

/-- Modelled from the spec: the generic resource-requirements check that
`ValidateOverhead` delegates to; all violations are collected. -/
def ValidateResourceRequirements (P : Primitives) (requirements : ResourceRequirements)
    (path : String) : List FieldError :=
  validateResourceList P requirements.Limits (fieldChild path "limits") ++
  validateResourceList P requirements.Requests (fieldChild path "requests") ++
  validateRequestsWithinLimits P requirements.Requests requirements.Limits
    (fieldChild path "requests")

/-- Modelled from the spec: `ValidateOverhead(o, path)` of `validation.go`
(section 4.2); `validation.go` is missing.  An absent overhead, or one whose
`PodFixed` is absent, is valid. -/
def ValidateOverhead (P : Primitives) (o : Option Overhead) (path : String) :
    List FieldError :=
  match o with
  | none => []
  | some overhead =>
    match overhead.PodFixed with
    | none => []
    | some podFixed => ValidateResourceRequirements P podFixed (fieldChild path "podFixed")

/-- Modelled from the spec: the handler check of the create path (section 4.3,
step 2): an empty handler is a `Required` error, a handler that is not a DNS label an
`Invalid` one. -/
def validateHandler (P : Primitives) (handler : String) : List FieldError :=
  if handler = "" then [FieldError.mk .Required "handler" "handler is required"]
  else if P.IsDNSLabel handler then []
  else [FieldError.mk .Invalid "handler" "must be a DNS label"]

/-- Modelled from the spec: `ValidateRuntimeClass(rc)` of `validation.go`
(section 4.3, create path); `validation.go` is missing. -/
def ValidateRuntimeClass (P : Primitives) (rc : RuntimeClass) : List FieldError :=
  P.ValidateObjectMeta rc.ObjectMeta ++
  validateHandler P rc.Handler ++
  ValidateOverhead P rc.Overhead "overhead"

/-- Modelled from the spec: the comparison of the handler across an update
(section 4.3, update path, step 2): any difference is an `Immutable` error. -/
def validateHandlerUnchanged (newHandler oldHandler : String) : List FieldError :=
  if newHandler = oldHandler then []
  else [FieldError.mk .Immutable "handler" "field is immutable"]

/-- Modelled from the spec: `ValidateRuntimeClassUpdate(new, old)` of
`validation.go` (section 4.3, update path); `validation.go` is missing.  The
create-path checks are run on the new object, then the metadata diff and the
handler comparison. -/
def ValidateRuntimeClassUpdate (P : Primitives) (new old : RuntimeClass) :
    List FieldError :=
  ValidateRuntimeClass P new ++
  P.ValidateObjectMetaUpdate new.ObjectMeta old.ObjectMeta ++
  validateHandlerUnchanged new.Handler old.Handler

/-- A stand-in for the delegated primitives, enough to run the validators:
metadata is valid when the name is not empty, the metadata diff rejects a changed
cluster name, handlers and resource names are valid when they use no character
outside lower-case letters, digits and the dash. -/
def stubPrimitives : Primitives where
  ValidateObjectMeta := fun m =>
    if m.Name = "" then [FieldError.mk .Required "metadata.name" "name is required"] else []
  ValidateObjectMetaUpdate := fun n o =>
    if n.ClusterName = o.ClusterName then []
    else [FieldError.mk .Immutable "metadata.clusterName" "field is immutable"]
  IsDNSLabel := fun s => s.toList.all fun c => c.isLower || c.isDigit || c == '-'
  IsValidResourceName := fun s => s.toList.all fun c => c.isLower || c.isDigit || c == '-'
  QuantityString := fun q => toString q.value

/-- The key is held by both maps and the request is larger than the limit. -/
def requestExceedsLimit (requests limits : ResourceList) (key : ResourceName) : Bool :=
  match requests.get key, limits.get key with
  | some r, some l => decide (l.value < r.value)
  | _, _ => false

/-- The keys held by both maps whose request is larger than its limit. -/
def offendingKeys (requirements : ResourceRequirements) : Finset ResourceName :=
  (requirements.Requests.keys.filter
    (requestExceedsLimit requirements.Requests requirements.Limits)).toFinset

/-! ## List conversion (`zz_generated.conversion.go`) -/

/-- Modelled from the spec: the type `metav1.ListMeta` is declared outside the files
at hand; the conversions copy it as a whole. -/
structure ListMeta where
  SelfLink : String
  ResourceVersion : String
  Continue : String
  deriving DecidableEq, Repr

/-- The list types `v1alpha1.RuntimeClassList` and `node.RuntimeClassList`,
`{ListMeta, Items}`; `Items` is a slice and may be nil. -/
structure RuntimeClassList (Item : Type) where
  ListMeta : ListMeta
  Items : Option (List Item)
  deriving DecidableEq, Repr

/-- The Go type `error`, by its message. -/
abbrev ConversionError := String

/-- The zero value of `node.RuntimeClass`, what `make` fills a new slice with. -/
def RuntimeClass.zero : RuntimeClass := ⟨⟨"", "", "", []⟩, "", none⟩

/-- The loop of the two list conversions,
`for i := range *in { if err := convert(&(*in)[i], &(*out)[i], s); err != nil { return err } }`:
the items are converted in order, each into its slot of `out`, and the first error
ends the loop.  The result is the slots as the loop leaves them and the error, if
any. -/
def convertItems {A B : Type} (convert : A → B → B × Option ConversionError) :
    List A → List B → List B × Option ConversionError
  | a :: as, b :: bs =>
    match convert a b with
    | (b2, some err) => (b2 :: bs, some err)
    | (b2, none) =>
      match convertItems convert as bs with
      | (bs2, err) => (b2 :: bs2, err)
  | _, bs => (bs, none)

/-- The function `autoConvert_v1alpha1_RuntimeClassList_To_node_RuntimeClassList`.
The item type `V` of the v1alpha1 list and the per-item conversion
`Convert_v1alpha1_RuntimeClass_To_node_RuntimeClass` are declared outside the files at
hand and are parameters; the conversion takes the item and the slot and gives the slot
as it leaves it and its error.  The updated `out` and the returned error are the
result. -/
def autoConvert_v1alpha1_RuntimeClassList_To_node_RuntimeClassList {V : Type}
    (Convert_v1alpha1_RuntimeClass_To_node_RuntimeClass :
      V → RuntimeClass → RuntimeClass × Option ConversionError)
    (inp : RuntimeClassList V) (out : RuntimeClassList RuntimeClass) :
    RuntimeClassList RuntimeClass × Option ConversionError :=
  let out := RuntimeClassList.mk inp.ListMeta out.Items
  match inp.Items with
  | some items =>
    match convertItems Convert_v1alpha1_RuntimeClass_To_node_RuntimeClass items
      (List.replicate items.length RuntimeClass.zero) with
    | (slots, err) => (RuntimeClassList.mk out.ListMeta (some slots), err)
  | none => (RuntimeClassList.mk out.ListMeta none, none)

/-- The function `Convert_v1alpha1_RuntimeClassList_To_node_RuntimeClassList`. -/
def Convert_v1alpha1_RuntimeClassList_To_node_RuntimeClassList {V : Type}
    (Convert_v1alpha1_RuntimeClass_To_node_RuntimeClass :
      V → RuntimeClass → RuntimeClass × Option ConversionError)
    (inp : RuntimeClassList V) (out : RuntimeClassList RuntimeClass) :
    RuntimeClassList RuntimeClass × Option ConversionError :=
  autoConvert_v1alpha1_RuntimeClassList_To_node_RuntimeClassList
    Convert_v1alpha1_RuntimeClass_To_node_RuntimeClass inp out

/-- The function `autoConvert_node_RuntimeClassList_To_v1alpha1_RuntimeClassList`.
The item type `V` of the v1alpha1 list, its zero value and the per-item conversion
`Convert_node_RuntimeClass_To_v1alpha1_RuntimeClass` are parameters. -/
def autoConvert_node_RuntimeClassList_To_v1alpha1_RuntimeClassList {V : Type} (zero : V)
    (Convert_node_RuntimeClass_To_v1alpha1_RuntimeClass :
      RuntimeClass → V → V × Option ConversionError)
    (inp : RuntimeClassList RuntimeClass) (out : RuntimeClassList V) :
    RuntimeClassList V × Option ConversionError :=
  let out := RuntimeClassList.mk inp.ListMeta out.Items
  match inp.Items with
  | some items =>
    match convertItems Convert_node_RuntimeClass_To_v1alpha1_RuntimeClass items
      (List.replicate items.length zero) with
    | (slots, err) => (RuntimeClassList.mk out.ListMeta (some slots), err)
  | none => (RuntimeClassList.mk out.ListMeta none, none)

/-- The function `Convert_node_RuntimeClassList_To_v1alpha1_RuntimeClassList`. -/
def Convert_node_RuntimeClassList_To_v1alpha1_RuntimeClassList {V : Type} (zero : V)
    (Convert_node_RuntimeClass_To_v1alpha1_RuntimeClass :
      RuntimeClass → V → V × Option ConversionError)
    (inp : RuntimeClassList RuntimeClass) (out : RuntimeClassList V) :
    RuntimeClassList V × Option ConversionError :=
  autoConvert_node_RuntimeClassList_To_v1alpha1_RuntimeClassList zero
    Convert_node_RuntimeClass_To_v1alpha1_RuntimeClass inp out

/-- A per-item conversion to run the list conversions with: a v1alpha1 item is taken
to be its handler name, copied into the slot; an empty name is an error. -/
def handlerToNode (v : String) (slot : RuntimeClass) : RuntimeClass × Option ConversionError :=
  (RuntimeClass.mk slot.ObjectMeta v slot.Overhead,
    if v = "" then some "empty handler" else none)

/-- A per-item conversion for the opposite direction: the handler name of the item. -/
def nodeToHandler (rc : RuntimeClass) (_slot : String) : String × Option ConversionError :=
  (rc.Handler, if rc.Handler = "" then some "empty handler" else none)

/-! ## Association-list facts -/

theorem Quantity.copy_eq (q : Quantity) : q.Copy = q := by
  cases q; rfl

theorem lookupEntry_isSome_iff (es : List (ResourceName × Quantity)) (key : ResourceName) :
    (lookupEntry es key).isSome = true ↔ key ∈ es.map Prod.fst := by
  induction es with
  | nil => simp [lookupEntry]
  | cons e es ih =>
    obtain ⟨k, v⟩ := e
    by_cases h : k = key
    · simp [lookupEntry, h]
    · have h2 : ¬ key = k := fun h3 => h h3.symm
      simp [lookupEntry, h, h2, ih]

theorem lookupEntry_eq_none_iff (es : List (ResourceName × Quantity)) (key : ResourceName) :
    lookupEntry es key = none ↔ key ∉ es.map Prod.fst := by
  rw [← lookupEntry_isSome_iff]
  cases lookupEntry es key <;> simp

theorem lookupEntry_storeEntry (es : List (ResourceName × Quantity))
    (key : ResourceName) (value : Quantity) (key2 : ResourceName) :
    lookupEntry (storeEntry es key value) key2 =
      if key = key2 then some value else lookupEntry es key2 := by
  induction es with
  | nil => simp [storeEntry, lookupEntry]
  | cons e es ih =>
    obtain ⟨k, v⟩ := e
    by_cases h : k = key
    · subst h
      by_cases h2 : k = key2 <;> simp [storeEntry, lookupEntry, h2]
    · by_cases h2 : k = key2
      · subst h2
        have h3 : ¬ key = k := fun h4 => h h4.symm
        simp [storeEntry, lookupEntry, h, h3]
      · simp [storeEntry, lookupEntry, h, h2, ih]

theorem storeEntry_keys_of_missing (es : List (ResourceName × Quantity))
    (key : ResourceName) (value : Quantity) (h : key ∉ es.map Prod.fst) :
    (storeEntry es key value).map Prod.fst = es.map Prod.fst ++ [key] := by
  induction es with
  | nil => simp [storeEntry]
  | cons e es ih =>
    obtain ⟨k, v⟩ := e
    simp only [List.map_cons, List.mem_cons, not_or] at h
    have h2 : ¬ k = key := fun h3 => h.1 h3.symm
    simp [storeEntry, h2, ih h.2]

theorem lookupEntry_perm {es₁ es₂ : List (ResourceName × Quantity)} (h : es₁.Perm es₂)
    (nd : (es₁.map Prod.fst).Nodup) (key : ResourceName) :
    lookupEntry es₁ key = lookupEntry es₂ key := by
  induction h with
  | nil => rfl
  | cons e _ ih =>
    obtain ⟨k, v⟩ := e
    simp only [List.map_cons, List.nodup_cons] at nd
    simp [lookupEntry, ih nd.2]
  | swap e₁ e₂ es =>
    obtain ⟨k₁, v₁⟩ := e₁
    obtain ⟨k₂, v₂⟩ := e₂
    simp only [List.map_cons, List.nodup_cons, List.mem_cons, not_or] at nd
    have hne : ¬ k₂ = k₁ := nd.1.1
    by_cases h1 : k₁ = key
    · subst h1
      simp [lookupEntry, hne]
    · simp [lookupEntry, h1]
  | trans h₁ _ ih₁ ih₂ =>
    exact (ih₁ nd).trans (ih₂ ((h₁.map Prod.fst).nodup_iff.mp nd))

theorem mem_keys_perm {es₁ es₂ : List (ResourceName × Quantity)} (h : es₁.Perm es₂)
    (key : ResourceName) : key ∈ es₁.map Prod.fst ↔ key ∈ es₂.map Prod.fst :=
  (h.map Prod.fst).mem_iff

/-! ## The copy loop -/

theorem copyIfMissing_present (es : List (ResourceName × Quantity))
    (kv : ResourceName × Quantity) :
    copyIfMissing (.present es) kv =
      .ok (.present (if (lookupEntry es kv.1).isSome then es else storeEntry es kv.1 kv.2)) := by
  unfold copyIfMissing
  by_cases h : (lookupEntry es kv.1).isSome = true
  · simp [ResourceList.get, ResourceList.entries, h]
  · simp [ResourceList.get, ResourceList.entries, h, ResourceList.set, Quantity.copy_eq]

theorem rangeCopy_nil (target : ResourceList) : rangeCopy [] target = .ok target := rfl

theorem rangeCopy_cons (kv : ResourceName × Quantity) (vs : List (ResourceName × Quantity))
    (es : List (ResourceName × Quantity)) :
    rangeCopy (kv :: vs) (.present es) =
      rangeCopy vs
        (.present (if (lookupEntry es kv.1).isSome then es else storeEntry es kv.1 kv.2)) := by
  unfold rangeCopy
  rw [List.foldlM_cons, copyIfMissing_present]
  rfl

/-- The copy loop into an allocated map never faults, and its result holds under each
key the value the target had, or else the first value visited under that key. -/
theorem rangeCopy_present (vs es : List (ResourceName × Quantity)) :
    ∃ es2, rangeCopy vs (.present es) = .ok (.present es2) ∧
      (∀ key, lookupEntry es2 key = (lookupEntry es key).or (lookupEntry vs key)) ∧
      ((es.map Prod.fst).Nodup → (es2.map Prod.fst).Nodup) ∧
      ((∀ key ∈ vs.map Prod.fst, key ∈ es.map Prod.fst) → es2 = es) := by
  induction vs generalizing es with
  | nil =>
    refine ⟨es, rfl, ?_, id, fun _ => rfl⟩
    intro key
    simp [lookupEntry]
  | cons kv vs ih =>
    obtain ⟨k, v⟩ := kv
    rw [rangeCopy_cons]
    by_cases h : (lookupEntry es k).isSome = true
    · simp only [h, if_true]
      obtain ⟨es2, h1, h2, h3, h4⟩ := ih es
      refine ⟨es2, h1, ?_, h3, ?_⟩
      · intro key
        rw [h2 key]
        by_cases hk : k = key
        · subst hk
          obtain ⟨q, hq⟩ := Option.isSome_iff_exists.mp h
          simp [hq]
        · simp [lookupEntry, hk]
      · intro hall
        exact h4 fun key hkey => hall key (by simp at hkey ⊢; exact Or.inr hkey)
    · simp only [h, Bool.false_eq_true, if_false]
      have hnone : lookupEntry es k = none := by
        cases hl : lookupEntry es k with
        | none => rfl
        | some q => simp [hl] at h
      have hmiss : k ∉ es.map Prod.fst := (lookupEntry_eq_none_iff es k).mp hnone
      obtain ⟨es2, h1, h2, h3, _⟩ := ih (storeEntry es k v)
      refine ⟨es2, h1, ?_, ?_, ?_⟩
      · intro key
        rw [h2 key, lookupEntry_storeEntry]
        by_cases hk : k = key
        · subst hk
          simp [lookupEntry, hnone]
        · simp [lookupEntry, hk]
      · intro nd
        apply h3
        rw [storeEntry_keys_of_missing es k v hmiss]
        exact List.Nodup.append nd (List.nodup_singleton k) (by simpa using hmiss)
      · intro hall
        exact absurd (hall k (by simp)) hmiss

/-! ## What `SetDefaults_Overhead` computes -/

theorem RangeOrder.visit_nil (order : RangeOrder) : order.visit [] = [] :=
  List.perm_nil.mp (order.perm [])

theorem entries_present (es : List (ResourceName × Quantity)) :
    (ResourceList.present es).entries = es := rfl

theorem isSome_or_iff (a b : Option Quantity) :
    (a.or b).isSome = true ↔ a.isSome = true ∨ b.isSome = true := by
  cases a <;> cases b <;> simp

theorem materialise_eq (m : ResourceList) :
    (if m.isNil then ResourceList.make else m) = .present m.entries := by
  cases m <;> rfl

theorem SetDefaults_Overhead_none (first second : RangeOrder) :
    SetDefaults_Overhead first second ⟨none⟩ = .ok ⟨some ⟨.absent, .absent⟩⟩ := rfl

/-- With `PodFixed` set, the defaulter returns two allocated maps, each the result of
one copy loop. -/
theorem SetDefaults_Overhead_some (first second : RangeOrder) (pf : ResourceRequirements) :
    ∃ ls rs, SetDefaults_Overhead first second ⟨some pf⟩ =
        .ok ⟨some ⟨.present ls, .present rs⟩⟩ ∧
      rangeCopy (first.visit pf.Limits.entries) (.present pf.Requests.entries) =
        .ok (.present rs) ∧
      rangeCopy (second.visit rs) (.present pf.Limits.entries) = .ok (.present ls) := by
  obtain ⟨rs, hr, -⟩ := rangeCopy_present (first.visit pf.Limits.entries) pf.Requests.entries
  obtain ⟨ls, hl, -⟩ := rangeCopy_present (second.visit rs) pf.Limits.entries
  refine ⟨ls, rs, ?_, hr, hl⟩
  simp only [SetDefaults_Overhead, materialise_eq, entries_present, hr, hl]

/-- The keys of the two defaulted maps: each is the union of the keys given. -/
theorem SetDefaults_Overhead_keys (first second : RangeOrder) (pf : ResourceRequirements) :
    ∃ ls rs, SetDefaults_Overhead first second ⟨some pf⟩ =
        .ok ⟨some ⟨.present ls, .present rs⟩⟩ ∧
      (∀ key, key ∈ rs.map Prod.fst ↔ key ∈ pf.Requests.keys ∨ key ∈ pf.Limits.keys) ∧
      (∀ key, key ∈ ls.map Prod.fst ↔ key ∈ pf.Requests.keys ∨ key ∈ pf.Limits.keys) := by
  obtain ⟨ls, rs, h, hr, hl⟩ := SetDefaults_Overhead_some first second pf
  obtain ⟨rs2, hr2, hrl, -⟩ := rangeCopy_present (first.visit pf.Limits.entries) pf.Requests.entries
  obtain ⟨ls2, hl2, hll, -⟩ := rangeCopy_present (second.visit rs) pf.Limits.entries
  rw [hr] at hr2
  rw [hl] at hl2
  injection hr2 with hr2
  injection hr2 with hr2
  injection hl2 with hl2
  injection hl2 with hl2
  subst hr2 hl2
  have keyR : ∀ key, key ∈ rs.map Prod.fst ↔ key ∈ pf.Requests.keys ∨ key ∈ pf.Limits.keys := by
    intro key
    rw [← lookupEntry_isSome_iff, hrl key, isSome_or_iff, lookupEntry_isSome_iff,
      lookupEntry_isSome_iff, mem_keys_perm (first.perm pf.Limits.entries) key]
    rfl
  refine ⟨ls, rs, h, keyR, ?_⟩
  intro key
  rw [← lookupEntry_isSome_iff, hll key, isSome_or_iff, lookupEntry_isSome_iff,
    lookupEntry_isSome_iff, mem_keys_perm (second.perm rs) key, keyR key]
  show key ∈ pf.Limits.keys ∨ _ ↔ _
  tauto

/-- The values of the two defaulted maps, for maps that hold each key once: a map
keeps its own value under a key and takes the other map's value otherwise. -/
theorem SetDefaults_Overhead_values (first second : RangeOrder) (pf : ResourceRequirements)
    (wr : pf.Requests.WellFormed) (wl : pf.Limits.WellFormed) :
    ∃ ls rs, SetDefaults_Overhead first second ⟨some pf⟩ =
        .ok ⟨some ⟨.present ls, .present rs⟩⟩ ∧
      (∀ key, lookupEntry rs key = (pf.Requests.get key).or (pf.Limits.get key)) ∧
      (∀ key, lookupEntry ls key = (pf.Limits.get key).or (pf.Requests.get key)) ∧
      (rs.map Prod.fst).Nodup ∧ (ls.map Prod.fst).Nodup := by
  obtain ⟨ls, rs, h, hr, hl⟩ := SetDefaults_Overhead_some first second pf
  obtain ⟨rs2, hr2, hrl, hrn, -⟩ :=
    rangeCopy_present (first.visit pf.Limits.entries) pf.Requests.entries
  obtain ⟨ls2, hl2, hll, hln, -⟩ := rangeCopy_present (second.visit rs) pf.Limits.entries
  rw [hr] at hr2
  rw [hl] at hl2
  injection hr2 with hr2
  injection hr2 with hr2
  injection hl2 with hl2
  injection hl2 with hl2
  subst hr2 hl2
  have ndr : (rs.map Prod.fst).Nodup := hrn wr
  have valR : ∀ key, lookupEntry rs key = (pf.Requests.get key).or (pf.Limits.get key) := by
    intro key
    rw [hrl key]
    have hv : lookupEntry (first.visit pf.Limits.entries) key = pf.Limits.get key := by
      have hp := (first.perm pf.Limits.entries).symm
      exact (lookupEntry_perm hp wl key).symm
    rw [hv]; rfl
  refine ⟨ls, rs, h, valR, ?_, ndr, hln wl⟩
  intro key
  rw [hll key]
  have hv : lookupEntry (second.visit rs) key = lookupEntry rs key :=
    (lookupEntry_perm (second.perm rs).symm ndr key).symm
  rw [hv, valR key]
  show ((pf.Limits.get key).or ((pf.Requests.get key).or (pf.Limits.get key))) = _
  cases pf.Limits.get key <;> cases pf.Requests.get key <;> rfl

/-- The values of the two defaulted maps in terms of what the loops visited; no
assumption on the maps. -/
theorem SetDefaults_Overhead_lookups (first second : RangeOrder) (pf : ResourceRequirements) :
    ∃ ls rs, SetDefaults_Overhead first second ⟨some pf⟩ =
        .ok ⟨some ⟨.present ls, .present rs⟩⟩ ∧
      (∀ key, lookupEntry rs key =
        (pf.Requests.get key).or (lookupEntry (first.visit pf.Limits.entries) key)) ∧
      (∀ key, lookupEntry ls key =
        (pf.Limits.get key).or (lookupEntry (second.visit rs) key)) ∧
      (pf.Requests.WellFormed → (rs.map Prod.fst).Nodup) ∧
      (pf.Limits.WellFormed → (ls.map Prod.fst).Nodup) := by
  obtain ⟨ls, rs, h, hr, hl⟩ := SetDefaults_Overhead_some first second pf
  obtain ⟨rs2, hr2, hrl, hrn, -⟩ :=
    rangeCopy_present (first.visit pf.Limits.entries) pf.Requests.entries
  obtain ⟨ls2, hl2, hll, hln, -⟩ := rangeCopy_present (second.visit rs) pf.Limits.entries
  rw [hr] at hr2
  rw [hl] at hl2
  injection hr2 with hr2
  injection hr2 with hr2
  injection hl2 with hl2
  injection hl2 with hl2
  subst hr2 hl2
  exact ⟨ls, rs, h, hrl, hll, hrn, hln⟩

/-- Running the defaulter on an object whose two maps are allocated and have the same
keys changes nothing. -/
theorem SetDefaults_Overhead_fixed (first second : RangeOrder)
    (ls rs : List (ResourceName × Quantity))
    (hk : ∀ key, key ∈ rs.map Prod.fst ↔ key ∈ ls.map Prod.fst) :
    SetDefaults_Overhead first second ⟨some ⟨.present ls, .present rs⟩⟩ =
      .ok ⟨some ⟨.present ls, .present rs⟩⟩ := by
  obtain ⟨ls2, rs2, h, hr, hl⟩ := SetDefaults_Overhead_some first second ⟨.present ls, .present rs⟩
  simp only [entries_present] at hr hl
  obtain ⟨rs3, hr3, -, -, hrid⟩ := rangeCopy_present (first.visit ls) rs
  have e1 : rs3 = rs := hrid fun key hkey =>
    (hk key).mpr ((mem_keys_perm (first.perm ls) key).mp hkey)
  rw [hr, e1] at hr3
  injection hr3 with hr3
  injection hr3 with hr3
  subst hr3
  obtain ⟨ls3, hl3, -, -, hlid⟩ := rangeCopy_present (second.visit rs2) ls
  have e2 : ls3 = ls := hlid fun key hkey =>
    (hk key).mp ((mem_keys_perm (second.perm rs2) key).mp hkey)
  rw [hl, e2] at hl3
  injection hl3 with hl3
  injection hl3 with hl3
  subst hl3
  exact h

/-! ## The claims about `SetDefaults_Overhead` -/

/-- C1: for every Overhead value and every visiting order, `SetDefaults_Overhead`
returns an object whose `PodFixed` is set and whose Requests and Limits have the same
key set. -/
theorem SetDefaults_Overhead_key_sets_agree (first second : RangeOrder) (o : Overhead) :
    ∃ pf, SetDefaults_Overhead first second o = .ok ⟨some pf⟩ ∧
      pf.Requests.keys.toFinset = pf.Limits.keys.toFinset := by
  obtain ⟨podFixed⟩ := o
  cases podFixed with
  | none => exact ⟨⟨.absent, .absent⟩, rfl, rfl⟩
  | some pf =>
    obtain ⟨ls, rs, h, hr, hl⟩ := SetDefaults_Overhead_keys first second pf
    refine ⟨⟨.present ls, .present rs⟩, h, ?_⟩
    ext key
    simp only [List.mem_toFinset]
    show key ∈ rs.map Prod.fst ↔ key ∈ ls.map Prod.fst
    rw [hr key, hl key]

/-- C2, as stated, fails: with `PodFixed` absent one application leaves both maps nil
and a second application allocates them. -/
theorem SetDefaults_Overhead_twice_differs_on_absent :
    SetDefaults_Overhead_twice .stored .stored .stored .stored ⟨none⟩ ≠
      SetDefaults_Overhead .stored .stored ⟨none⟩ := by
  decide

/-- C2, amended: when `PodFixed` is set, applying the defaulter twice gives exactly the
object that one application gives, whatever the visiting orders; when `PodFixed` is
absent, one application gives two nil maps and two applications give two allocated
empty maps, so the results hold the same (no) entries. -/
theorem SetDefaults_Overhead_idempotent_on_present
    (first second first2 second2 : RangeOrder) :
    (∀ pf, SetDefaults_Overhead_twice first second first2 second2 ⟨some pf⟩ =
        SetDefaults_Overhead first second ⟨some pf⟩) ∧
      SetDefaults_Overhead first second ⟨none⟩ = .ok ⟨some ⟨.absent, .absent⟩⟩ ∧
      SetDefaults_Overhead_twice first second first2 second2 ⟨none⟩ =
        .ok ⟨some ⟨.present [], .present []⟩⟩ := by
  refine ⟨?_, rfl, ?_⟩
  · intro pf
    obtain ⟨ls, rs, h, hr, hl⟩ := SetDefaults_Overhead_keys first second pf
    unfold SetDefaults_Overhead_twice
    rw [h]
    exact SetDefaults_Overhead_fixed first2 second2 ls rs fun key => by rw [hr key, hl key]
  · unfold SetDefaults_Overhead_twice
    rw [SetDefaults_Overhead_none]
    simp only [SetDefaults_Overhead, materialise_eq, ResourceList.entries,
      RangeOrder.visit_nil, rangeCopy_nil]

/-- C3, as stated, fails: with `PodFixed` absent the defaulter does not return
allocated maps. -/
theorem SetDefaults_Overhead_absent_not_allocated :
    ¬ ∃ pf, SetDefaults_Overhead .stored .stored ⟨none⟩ = .ok ⟨some pf⟩ ∧
      pf.Requests.isNil = false ∧ pf.Limits.isNil = false := by
  rintro ⟨pf, h, hr, -⟩
  rw [SetDefaults_Overhead_none] at h
  injection h with h
  injection h with h
  injection h with h
  subst h
  simp [ResourceList.isNil] at hr

/-- C3, amended: when `PodFixed` is set, both maps are allocated after defaulting; when
`PodFixed` is absent, it is set to a new `ResourceRequirements` whose Requests and
Limits are both nil. -/
theorem SetDefaults_Overhead_allocates_on_present (first second : RangeOrder) :
    (∀ pf, ∃ ls rs, SetDefaults_Overhead first second ⟨some pf⟩ =
        .ok ⟨some ⟨.present ls, .present rs⟩⟩) ∧
      SetDefaults_Overhead first second ⟨none⟩ = .ok ⟨some ⟨.absent, .absent⟩⟩ := by
  refine ⟨?_, rfl⟩
  intro pf
  obtain ⟨ls, rs, h, -⟩ := SetDefaults_Overhead_some first second pf
  exact ⟨ls, rs, h⟩

/-- C4: a key held by both Requests (value r) and Limits (value l) before the call
still has value r in Requests and value l in Limits afterwards, equal or not. -/
theorem SetDefaults_Overhead_keeps_shared_keys (first second : RangeOrder)
    (pf : ResourceRequirements) (key : ResourceName) (r l : Quantity)
    (hr : pf.Requests.get key = some r) (hl : pf.Limits.get key = some l) :
    ∃ pf2, SetDefaults_Overhead first second ⟨some pf⟩ = .ok ⟨some pf2⟩ ∧
      pf2.Requests.get key = some r ∧ pf2.Limits.get key = some l := by
  obtain ⟨ls, rs, h, hrs, hls, -⟩ := SetDefaults_Overhead_lookups first second pf
  refine ⟨⟨.present ls, .present rs⟩, h, ?_, ?_⟩
  · show lookupEntry rs key = some r
    rw [hrs key, hr]; rfl
  · show lookupEntry ls key = some l
    rw [hls key, hl]; rfl

theorem SetDefaults_Overhead_keeps_shared_keys_witness :
    ∃ pf2, SetDefaults_Overhead .stored .reversed
        ⟨some ⟨.present [("cpu", ⟨7⟩)], .present [("cpu", ⟨6⟩)]⟩⟩ = .ok ⟨some pf2⟩ ∧
      pf2.Requests.get "cpu" = some ⟨6⟩ ∧ pf2.Limits.get "cpu" = some ⟨7⟩ :=
  SetDefaults_Overhead_keeps_shared_keys .stored .reversed
    ⟨.present [("cpu", ⟨7⟩)], .present [("cpu", ⟨6⟩)]⟩ "cpu" ⟨6⟩ ⟨7⟩ (by decide) (by decide)

/-- C5: with `PodFixed` set and Requests a map (each key held once), a key held by
Requests (value r) and not by Limits (nil or lacking the key) has value r in both
maps afterwards. -/
theorem SetDefaults_Overhead_limits_from_requests (first second : RangeOrder)
    (pf : ResourceRequirements) (key : ResourceName) (r : Quantity)
    (wr : pf.Requests.WellFormed)
    (hr : pf.Requests.get key = some r) (hl : pf.Limits.get key = none) :
    ∃ pf2, SetDefaults_Overhead first second ⟨some pf⟩ = .ok ⟨some pf2⟩ ∧
      pf2.Limits.get key = some r ∧ pf2.Requests.get key = some r := by
  obtain ⟨ls, rs, h, hrs, hls, nr, -⟩ := SetDefaults_Overhead_lookups first second pf
  have hrk : lookupEntry rs key = some r := by rw [hrs key, hr]; rfl
  refine ⟨⟨.present ls, .present rs⟩, h, ?_, hrk⟩
  show lookupEntry ls key = some r
  rw [hls key, hl, ← lookupEntry_perm (second.perm rs).symm (nr wr) key, hrk]
  rfl

theorem SetDefaults_Overhead_limits_from_requests_witness :
    ∃ pf2, SetDefaults_Overhead .reversed .stored
        ⟨some ⟨.absent, .present [("cpu", ⟨4⟩)]⟩⟩ = .ok ⟨some pf2⟩ ∧
      pf2.Limits.get "cpu" = some ⟨4⟩ ∧ pf2.Requests.get "cpu" = some ⟨4⟩ :=
  SetDefaults_Overhead_limits_from_requests .reversed .stored
    ⟨.absent, .present [("cpu", ⟨4⟩)]⟩ "cpu" ⟨4⟩ (by decide) (by decide) (by decide)

/-- C6: with `PodFixed` set and Limits a map (each key held once), a key held by
Limits (value l) and not by Requests (nil or lacking the key) has value l in both
maps afterwards. -/
theorem SetDefaults_Overhead_requests_from_limits (first second : RangeOrder)
    (pf : ResourceRequirements) (key : ResourceName) (l : Quantity)
    (wl : pf.Limits.WellFormed)
    (hl : pf.Limits.get key = some l) (hr : pf.Requests.get key = none) :
    ∃ pf2, SetDefaults_Overhead first second ⟨some pf⟩ = .ok ⟨some pf2⟩ ∧
      pf2.Requests.get key = some l ∧ pf2.Limits.get key = some l := by
  obtain ⟨ls, rs, h, hrs, hls, -⟩ := SetDefaults_Overhead_lookups first second pf
  refine ⟨⟨.present ls, .present rs⟩, h, ?_, ?_⟩
  · show lookupEntry rs key = some l
    rw [hrs key, hr, ← lookupEntry_perm (first.perm pf.Limits.entries).symm wl key]
    exact hl
  · show lookupEntry ls key = some l
    rw [hls key, hl]; rfl

theorem SetDefaults_Overhead_requests_from_limits_witness :
    ∃ pf2, SetDefaults_Overhead .stored .stored
        ⟨some ⟨.present [("cpu", ⟨5⟩)], .absent⟩⟩ = .ok ⟨some pf2⟩ ∧
      pf2.Requests.get "cpu" = some ⟨5⟩ ∧ pf2.Limits.get "cpu" = some ⟨5⟩ :=
  SetDefaults_Overhead_requests_from_limits .stored .stored
    ⟨.present [("cpu", ⟨5⟩)], .absent⟩ "cpu" ⟨5⟩ (by decide) (by decide) (by decide)

/-- C7: when `PodFixed` is absent, or set with both maps nil, reading any resource
name from Requests and from Limits after defaulting gives the zero quantity. -/
theorem SetDefaults_Overhead_reads_zero (first second : RangeOrder) (key : ResourceName) :
    (∃ pf, SetDefaults_Overhead first second ⟨none⟩ = .ok ⟨some pf⟩ ∧
      pf.Requests.index key = Quantity.zero ∧ pf.Limits.index key = Quantity.zero) ∧
    (∃ pf, SetDefaults_Overhead first second ⟨some ⟨.absent, .absent⟩⟩ = .ok ⟨some pf⟩ ∧
      pf.Requests.index key = Quantity.zero ∧ pf.Limits.index key = Quantity.zero) := by
  refine ⟨⟨⟨.absent, .absent⟩, rfl, rfl, rfl⟩, ⟨.present [], .present []⟩, ?_, rfl, rfl⟩
  simp only [SetDefaults_Overhead, materialise_eq, ResourceList.entries,
    RangeOrder.visit_nil, rangeCopy_nil]

/-- C8: the result does not depend on the order in which the two loops visit the
entries, nor on the order in which the entries of the given maps are listed: two runs
on the same two maps return the same Requests map and the same Limits map. -/
theorem SetDefaults_Overhead_order_independent (first second first2 second2 : RangeOrder)
    (pf pf2 : ResourceRequirements)
    (wr : pf.Requests.WellFormed) (wl : pf.Limits.WellFormed)
    (wr2 : pf2.Requests.WellFormed) (wl2 : pf2.Limits.WellFormed)
    (sr : pf.Requests.SameMap pf2.Requests) (sl : pf.Limits.SameMap pf2.Limits) :
    ∃ d d2, SetDefaults_Overhead first second ⟨some pf⟩ = .ok ⟨some d⟩ ∧
      SetDefaults_Overhead first2 second2 ⟨some pf2⟩ = .ok ⟨some d2⟩ ∧
      d.Requests.SameMap d2.Requests ∧ d.Limits.SameMap d2.Limits ∧
      d.Requests.WellFormed ∧ d.Limits.WellFormed ∧
      d2.Requests.WellFormed ∧ d2.Limits.WellFormed := by
  obtain ⟨ls, rs, h, hrs, hls, nr, nl⟩ := SetDefaults_Overhead_values first second pf wr wl
  obtain ⟨ls2, rs2, h2, hrs2, hls2, nr2, nl2⟩ :=
    SetDefaults_Overhead_values first2 second2 pf2 wr2 wl2
  refine ⟨⟨.present ls, .present rs⟩, ⟨.present ls2, .present rs2⟩, h, h2,
    ⟨rfl, ?_⟩, ⟨rfl, ?_⟩, nr, nl, nr2, nl2⟩
  · intro key
    show lookupEntry rs key = lookupEntry rs2 key
    rw [hrs key, hrs2 key, sr.2 key, sl.2 key]
  · intro key
    show lookupEntry ls key = lookupEntry ls2 key
    rw [hls key, hls2 key, sr.2 key, sl.2 key]

theorem SetDefaults_Overhead_order_independent_witness :
    ∃ d d2, SetDefaults_Overhead .stored .stored
        ⟨some ⟨.present [("cpu", ⟨5⟩), ("memory", ⟨8⟩)], .present [("gpu", ⟨2⟩), ("cpu", ⟨3⟩)]⟩⟩ =
          .ok ⟨some d⟩ ∧
      SetDefaults_Overhead .reversed .reversed
        ⟨some ⟨.present [("cpu", ⟨5⟩), ("memory", ⟨8⟩)], .present [("gpu", ⟨2⟩), ("cpu", ⟨3⟩)]⟩⟩ =
          .ok ⟨some d2⟩ ∧
      d.Requests.SameMap d2.Requests ∧ d.Limits.SameMap d2.Limits ∧
      d.Requests.WellFormed ∧ d.Limits.WellFormed ∧
      d2.Requests.WellFormed ∧ d2.Limits.WellFormed :=
  SetDefaults_Overhead_order_independent .stored .stored .reversed .reversed
    ⟨.present [("cpu", ⟨5⟩), ("memory", ⟨8⟩)], .present [("gpu", ⟨2⟩), ("cpu", ⟨3⟩)]⟩
    ⟨.present [("cpu", ⟨5⟩), ("memory", ⟨8⟩)], .present [("gpu", ⟨2⟩), ("cpu", ⟨3⟩)]⟩
    (by decide) (by decide) (by decide) (by decide)
    ⟨rfl, fun _ => rfl⟩ ⟨rfl, fun _ => rfl⟩

/-- C9: for every Overhead value and every visiting order, `SetDefaults_Overhead`
returns a result: the panic of a write into a nil map is never raised. -/
theorem SetDefaults_Overhead_never_panics (first second : RangeOrder) (o : Overhead) :
    ∃ o2, SetDefaults_Overhead first second o = .ok o2 := by
  obtain ⟨podFixed⟩ := o
  cases podFixed with
  | none => exact ⟨_, rfl⟩
  | some pf =>
    obtain ⟨ls, rs, h, -⟩ := SetDefaults_Overhead_some first second pf
    exact ⟨_, h⟩

/-! ## The claims about the validators -/

/-- C10: when the handler of the new object differs from the handler of the old one,
`ValidateRuntimeClassUpdate` returns a non-empty list that holds an `Immutable` error
on the handler field, whatever the metadata and whether or not the new handler is
well formed. -/
theorem ValidateRuntimeClassUpdate_handler_immutable (P : Primitives)
    (new old : RuntimeClass) (h : new.Handler ≠ old.Handler) :
    ValidateRuntimeClassUpdate P new old ≠ [] ∧
      ∃ e ∈ ValidateRuntimeClassUpdate P new old,
        e.Type_ = ErrorType.Immutable ∧ e.Field = "handler" := by
  have hmem : FieldError.mk .Immutable "handler" "field is immutable" ∈
      ValidateRuntimeClassUpdate P new old := by
    unfold ValidateRuntimeClassUpdate validateHandlerUnchanged
    simp [h]
  exact ⟨List.ne_nil_of_mem hmem, _, hmem, rfl, rfl⟩

theorem ValidateRuntimeClassUpdate_handler_immutable_witness :
    ValidateRuntimeClassUpdate stubPrimitives
        ⟨⟨"foo", "", "1", []⟩, "&@#$", none⟩ ⟨⟨"foo", "", "1", []⟩, "bar", none⟩ ≠ [] ∧
      ∃ e ∈ ValidateRuntimeClassUpdate stubPrimitives
          ⟨⟨"foo", "", "1", []⟩, "&@#$", none⟩ ⟨⟨"foo", "", "1", []⟩, "bar", none⟩,
        e.Type_ = ErrorType.Immutable ∧ e.Field = "handler" :=
  ValidateRuntimeClassUpdate_handler_immutable stubPrimitives
    ⟨⟨"foo", "", "1", []⟩, "&@#$", none⟩ ⟨⟨"foo", "", "1", []⟩, "bar", none⟩ (by decide)

/-! ### Facts about the modelled validators -/

theorem lookupEntry_mem {es : List (ResourceName × Quantity)} {key : ResourceName}
    {v : Quantity} (h : lookupEntry es key = some v) : (key, v) ∈ es := by
  induction es with
  | nil => simp [lookupEntry] at h
  | cons e es ih =>
    obtain ⟨k, w⟩ := e
    by_cases hk : k = key
    · subst hk
      simp only [lookupEntry, if_true, Option.some.injEq] at h
      subst h
      exact List.mem_cons_self _ _
    · simp only [lookupEntry, hk, if_false] at h
      exact List.mem_cons_of_mem _ (ih h)

theorem lookupEntry_of_mem_nodup {es : List (ResourceName × Quantity)} {key : ResourceName}
    {v : Quantity} (nd : (es.map Prod.fst).Nodup) (h : (key, v) ∈ es) :
    lookupEntry es key = some v := by
  induction es with
  | nil => simp at h
  | cons e es ih =>
    obtain ⟨k, w⟩ := e
    simp only [List.map_cons, List.nodup_cons] at nd
    rcases List.mem_cons.mp h with heq | hmem
    · injection heq with h1 h2
      subst h1 h2
      simp [lookupEntry]
    · have hne : ¬ k = key := by
        intro hk
        subst hk
        exact nd.1 (List.mem_map.mpr ⟨(k, v), hmem, rfl⟩)
      simp only [lookupEntry, hne, if_false]
      exact ih nd.2 hmem

theorem validateResourceList_eq_nil (P : Primitives) (m : ResourceList) (path : String)
    (hv : ∀ kv ∈ m.entries, P.IsValidResourceName kv.1 = true ∧ 0 ≤ kv.2.value) :
    validateResourceList P m path = [] := by
  unfold validateResourceList
  rw [List.flatMap_eq_nil_iff]
  intro kv hkv
  obtain ⟨h1, h2⟩ := hv kv hkv
  simp [h1, not_lt.mpr h2]

/-- The cross-check reports the entry of a key held by both maps whose request is
above the limit. -/
theorem validateRequestsWithinLimits_mem (P : Primitives) (requests limits : ResourceList)
    (path : String) (key : ResourceName) (r l : Quantity)
    (hr : requests.get key = some r) (hl : limits.get key = some l) (hlt : l.value < r.value) :
    FieldError.mk .Invalid (fieldKey path key)
        ("must be less than or equal to " ++ key ++ " limit of " ++ P.QuantityString l) ∈
      validateRequestsWithinLimits P requests limits path := by
  unfold validateRequestsWithinLimits
  rw [List.mem_flatMap]
  refine ⟨(key, r), lookupEntry_mem hr, ?_⟩
  simp [hl, not_le.mpr hlt]

/-- The number of errors of a pass that reports at most one error per entry is the
number of keys it flags. -/
theorem length_flatMap_flags (f : ResourceName × Quantity → List FieldError)
    (p : ResourceName → Bool) (es : List (ResourceName × Quantity))
    (h : ∀ kv ∈ es, (f kv).length = if p kv.1 then 1 else 0) :
    (es.flatMap f).length = ((es.map Prod.fst).filter p).length := by
  induction es with
  | nil => rfl
  | cons e es ih =>
    have h1 := h e (List.mem_cons_self _ _)
    have h2 := ih fun kv hkv => h kv (List.mem_cons_of_mem _ hkv)
    rw [List.flatMap_cons, List.length_append, h1, h2, List.map_cons, List.filter_cons]
    by_cases hp : p e.1 = true
    · simp [hp, Nat.add_comm]
    · simp [hp]

theorem validateRequestsWithinLimits_length (P : Primitives) (requests limits : ResourceList)
    (path : String) (wr : requests.WellFormed) :
    (validateRequestsWithinLimits P requests limits path).length =
      (requests.keys.filter (requestExceedsLimit requests limits)).length := by
  unfold validateRequestsWithinLimits ResourceList.keys
  apply length_flatMap_flags
  intro kv hkv
  obtain ⟨k, r⟩ := kv
  have hget : requests.get k = some r := lookupEntry_of_mem_nodup wr hkv
  simp only [requestExceedsLimit, hget]
  cases hl : limits.get k with
  | none => simp
  | some l =>
    by_cases hle : r.value ≤ l.value
    · simp [hle, not_lt.mpr hle]
    · simp [hle, not_le.mp hle]

/-- C11: for an Overhead with `PodFixed` set and a key held by both maps, a run of
`ValidateOverhead` that returns no errors means the request is at most the limit;
put the other way, a request above its limit makes the returned list non-empty. -/
theorem ValidateOverhead_requests_within_limits (P : Primitives) (pf : ResourceRequirements)
    (path : String) (key : ResourceName) (r l : Quantity)
    (hr : pf.Requests.get key = some r) (hl : pf.Limits.get key = some l) :
    (ValidateOverhead P (some ⟨some pf⟩) path = [] → r.value ≤ l.value) ∧
      (l.value < r.value → ValidateOverhead P (some ⟨some pf⟩) path ≠ []) := by
  have key_fact : l.value < r.value → ValidateOverhead P (some ⟨some pf⟩) path ≠ [] := by
    intro hlt
    have hmem := validateRequestsWithinLimits_mem P pf.Requests pf.Limits
      (fieldChild (fieldChild path "podFixed") "requests") key r l hr hl hlt
    have hmem2 : FieldError.mk .Invalid
        (fieldKey (fieldChild (fieldChild path "podFixed") "requests") key)
        ("must be less than or equal to " ++ key ++ " limit of " ++ P.QuantityString l) ∈
        ValidateOverhead P (some ⟨some pf⟩) path := by
      show _ ∈ ValidateResourceRequirements P pf (fieldChild path "podFixed")
      unfold ValidateResourceRequirements
      exact List.mem_append_right _ hmem
    exact List.ne_nil_of_mem hmem2
  refine ⟨fun hok => ?_, key_fact⟩
  by_contra hnot
  exact key_fact (not_le.mp hnot) hok

theorem ValidateOverhead_requests_within_limits_witness :
    (ValidateOverhead stubPrimitives
        (some ⟨some ⟨.present [("cpu", ⟨9⟩)], .present [("cpu", ⟨10⟩)]⟩⟩) "overheads" = [] →
      (10 : Int) ≤ 9) ∧
    ((9 : Int) < 10 → ValidateOverhead stubPrimitives
        (some ⟨some ⟨.present [("cpu", ⟨9⟩)], .present [("cpu", ⟨10⟩)]⟩⟩) "overheads" ≠ []) :=
  ValidateOverhead_requests_within_limits stubPrimitives
    ⟨.present [("cpu", ⟨9⟩)], .present [("cpu", ⟨10⟩)]⟩ "overheads" "cpu" ⟨10⟩ ⟨9⟩
    (by decide) (by decide)

/-- C12: a RuntimeClass whose handler is the empty string is rejected by
`ValidateRuntimeClass`, whatever its other fields: the list is non-empty and holds a
`Required` error on the handler field. -/
theorem ValidateRuntimeClass_empty_handler_required (P : Primitives) (rc : RuntimeClass)
    (h : rc.Handler = "") :
    ValidateRuntimeClass P rc ≠ [] ∧
      ∃ e ∈ ValidateRuntimeClass P rc, e.Type_ = ErrorType.Required ∧ e.Field = "handler" := by
  have hmem : FieldError.mk .Required "handler" "handler is required" ∈
      ValidateRuntimeClass P rc := by
    unfold ValidateRuntimeClass validateHandler
    simp [h]
  exact ⟨List.ne_nil_of_mem hmem, _, hmem, rfl, rfl⟩

theorem ValidateRuntimeClass_empty_handler_required_witness :
    ValidateRuntimeClass stubPrimitives ⟨⟨"empty", "", "", []⟩, "", none⟩ ≠ [] ∧
      ∃ e ∈ ValidateRuntimeClass stubPrimitives ⟨⟨"empty", "", "", []⟩, "", none⟩,
        e.Type_ = ErrorType.Required ∧ e.Field = "handler" :=
  ValidateRuntimeClass_empty_handler_required stubPrimitives
    ⟨⟨"empty", "", "", []⟩, "", none⟩ rfl

/-- C13: an Overhead in which one of Requests and Limits is absent, and whose entries
all carry a recognised resource name and a quantity that is not negative, passes
`ValidateOverhead` with no errors. -/
theorem ValidateOverhead_one_sided_ok (P : Primitives) (pf : ResourceRequirements)
    (path : String)
    (hone : pf.Requests = .absent ∨ pf.Limits = .absent)
    (hv : ∀ kv ∈ pf.Requests.entries ++ pf.Limits.entries,
      P.IsValidResourceName kv.1 = true ∧ 0 ≤ kv.2.value) :
    ValidateOverhead P (some ⟨some pf⟩) path = [] := by
  show ValidateResourceRequirements P pf (fieldChild path "podFixed") = []
  unfold ValidateResourceRequirements
  rw [validateResourceList_eq_nil P pf.Limits _
      (fun kv hkv => hv kv (List.mem_append_right _ hkv)),
    validateResourceList_eq_nil P pf.Requests _
      (fun kv hkv => hv kv (List.mem_append_left _ hkv))]
  unfold validateRequestsWithinLimits
  rcases hone with h | h
  · rw [h]; rfl
  · rw [h, List.append_nil, List.nil_append, List.flatMap_eq_nil_iff]
    intro kv _
    rfl

theorem ValidateOverhead_one_sided_ok_witness :
    ValidateOverhead stubPrimitives
      (some ⟨some ⟨.present [("cpu", ⟨10⟩), ("memory", ⟨10000000000⟩)], .absent⟩⟩)
      "overheads" = [] :=
  ValidateOverhead_one_sided_ok stubPrimitives
    ⟨.present [("cpu", ⟨10⟩), ("memory", ⟨10000000000⟩)], .absent⟩ "overheads"
    (Or.inl rfl) (by decide)

/-- C14: for every field path `ValidateOverhead` returns no errors when the Overhead
pointer is nil and when its `PodFixed` is nil; and the object the defaulter makes of
`Overhead{}` passes validation with no errors. -/
theorem ValidateOverhead_absent_ok (P : Primitives) (path : String)
    (first second : RangeOrder) :
    ValidateOverhead P none path = [] ∧
      ValidateOverhead P (some ⟨none⟩) path = [] ∧
      ∃ o2, SetDefaults_Overhead first second ⟨none⟩ = .ok o2 ∧
        ValidateOverhead P (some o2) path = [] :=
  ⟨rfl, rfl, ⟨some ⟨.absent, .absent⟩⟩, rfl, rfl⟩

/-- C15: for an Overhead whose entries all carry a recognised resource name and a
quantity that is not negative (Requests holding each key once), the number of errors
`ValidateOverhead` returns is the number of keys held by both maps whose request is
above its limit: every offending key is reported, not only the first. -/
theorem ValidateOverhead_error_count (P : Primitives) (pf : ResourceRequirements)
    (path : String) (wr : pf.Requests.WellFormed)
    (hv : ∀ kv ∈ pf.Requests.entries ++ pf.Limits.entries,
      P.IsValidResourceName kv.1 = true ∧ 0 ≤ kv.2.value) :
    (ValidateOverhead P (some ⟨some pf⟩) path).length = (offendingKeys pf).card := by
  show (ValidateResourceRequirements P pf (fieldChild path "podFixed")).length = _
  unfold ValidateResourceRequirements
  rw [validateResourceList_eq_nil P pf.Limits _
      (fun kv hkv => hv kv (List.mem_append_right _ hkv)),
    validateResourceList_eq_nil P pf.Requests _
      (fun kv hkv => hv kv (List.mem_append_left _ hkv)),
    List.nil_append, List.nil_append, validateRequestsWithinLimits_length P _ _ _ wr]
  unfold offendingKeys
  rw [List.toFinset_card_of_nodup (List.Nodup.filter _ wr)]

theorem ValidateOverhead_error_count_witness :
    (ValidateOverhead stubPrimitives
        (some ⟨some ⟨.present [("cpu", ⟨9⟩)], .present [("cpu", ⟨10⟩)]⟩⟩) "overheads").length =
      (offendingKeys ⟨.present [("cpu", ⟨9⟩)], .present [("cpu", ⟨10⟩)]⟩).card ∧
    (offendingKeys ⟨.present [("cpu", ⟨9⟩)], .present [("cpu", ⟨10⟩)]⟩).card = 1 :=
  ⟨ValidateOverhead_error_count stubPrimitives
    ⟨.present [("cpu", ⟨9⟩)], .present [("cpu", ⟨10⟩)]⟩ "overheads" (by decide) (by decide),
    by decide⟩

/-- C16: the update path runs the create-path checks on the new object: the errors of
`ValidateRuntimeClass(new)` are all returned by `ValidateRuntimeClassUpdate(new, old)`,
in the same order and as often, whether or not the handler changed. -/
theorem ValidateRuntimeClassUpdate_reruns_create_checks (P : Primitives)
    (new old : RuntimeClass) :
    (ValidateRuntimeClass P new).Sublist (ValidateRuntimeClassUpdate P new old) ∧
      (ValidateRuntimeClass P new) ⊆ (ValidateRuntimeClassUpdate P new old) := by
  have hsub : (ValidateRuntimeClass P new).Sublist (ValidateRuntimeClassUpdate P new old) := by
    unfold ValidateRuntimeClassUpdate
    rw [List.append_assoc]
    exact List.sublist_append_left _ _
  exact ⟨hsub, hsub.subset⟩

/-! ## Further claims about `SetDefaults_Overhead` -/

/-- Keys and values of the defaulted maps together, for maps that hold each key
once. -/
theorem SetDefaults_Overhead_keys_values (first second : RangeOrder)
    (pf : ResourceRequirements) (wr : pf.Requests.WellFormed) (wl : pf.Limits.WellFormed) :
    ∃ ls rs, SetDefaults_Overhead first second ⟨some pf⟩ =
        .ok ⟨some ⟨.present ls, .present rs⟩⟩ ∧
      (∀ key, key ∈ rs.map Prod.fst ↔ key ∈ pf.Requests.keys ∨ key ∈ pf.Limits.keys) ∧
      (∀ key, key ∈ ls.map Prod.fst ↔ key ∈ pf.Requests.keys ∨ key ∈ pf.Limits.keys) ∧
      (∀ key, lookupEntry rs key = (pf.Requests.get key).or (pf.Limits.get key)) ∧
      (∀ key, lookupEntry ls key = (pf.Limits.get key).or (pf.Requests.get key)) := by
  obtain ⟨ls, rs, h, kr, kl⟩ := SetDefaults_Overhead_keys first second pf
  obtain ⟨ls2, rs2, h2, vr, vl, -⟩ := SetDefaults_Overhead_values first second pf wr wl
  rw [h] at h2
  injection h2 with h2
  injection h2 with h2
  injection h2 with h2
  injection h2 with hl hr
  injection hl with hl
  injection hr with hr
  subst hl hr
  exact ⟨ls, rs, h, kr, kl, vr, vl⟩

/-- C17: with `PodFixed` set (each map holding a key once), the key set of the
defaulted Requests and the key set of the defaulted Limits are both the union of the
two key sets given, and every value of a defaulted map is a value that one of the
given maps held under the same key. -/
theorem SetDefaults_Overhead_key_union (first second : RangeOrder)
    (pf : ResourceRequirements) (wr : pf.Requests.WellFormed) (wl : pf.Limits.WellFormed) :
    ∃ d, SetDefaults_Overhead first second ⟨some pf⟩ = .ok ⟨some d⟩ ∧
      d.Requests.keys.toFinset = pf.Requests.keys.toFinset ∪ pf.Limits.keys.toFinset ∧
      d.Limits.keys.toFinset = pf.Requests.keys.toFinset ∪ pf.Limits.keys.toFinset ∧
      (∀ key v, d.Requests.get key = some v →
        pf.Requests.get key = some v ∨ pf.Limits.get key = some v) ∧
      (∀ key v, d.Limits.get key = some v →
        pf.Requests.get key = some v ∨ pf.Limits.get key = some v) := by
  obtain ⟨ls, rs, h, kr, kl, vr, vl⟩ := SetDefaults_Overhead_keys_values first second pf wr wl
  refine ⟨⟨.present ls, .present rs⟩, h, ?_, ?_, ?_, ?_⟩
  · ext key
    simp only [List.mem_toFinset, Finset.mem_union]
    exact kr key
  · ext key
    simp only [List.mem_toFinset, Finset.mem_union]
    exact kl key
  · intro key v hv
    have hv2 : lookupEntry rs key = some v := hv
    rw [vr key] at hv2
    cases hq : pf.Requests.get key with
    | none => rw [hq] at hv2; exact Or.inr hv2
    | some q => rw [hq] at hv2; exact Or.inl hv2
  · intro key v hv
    have hv2 : lookupEntry ls key = some v := hv
    rw [vl key] at hv2
    cases hq : pf.Limits.get key with
    | none => rw [hq] at hv2; exact Or.inl hv2
    | some q => rw [hq] at hv2; exact Or.inr hv2

theorem SetDefaults_Overhead_key_union_witness :
    ∃ d, SetDefaults_Overhead .reversed .stored
        ⟨some ⟨.present [("cpu", ⟨5⟩), ("memory", ⟨8⟩)], .present [("gpu", ⟨2⟩), ("cpu", ⟨3⟩)]⟩⟩ =
          .ok ⟨some d⟩ ∧
      d.Requests.keys.toFinset =
        (["gpu", "cpu"] : List ResourceName).toFinset ∪ ["cpu", "memory"].toFinset ∧
      d.Limits.keys.toFinset =
        (["gpu", "cpu"] : List ResourceName).toFinset ∪ ["cpu", "memory"].toFinset ∧
      (∀ key v, d.Requests.get key = some v →
        lookupEntry [("gpu", ⟨2⟩), ("cpu", ⟨3⟩)] key = some v ∨
          lookupEntry [("cpu", ⟨5⟩), ("memory", ⟨8⟩)] key = some v) ∧
      (∀ key v, d.Limits.get key = some v →
        lookupEntry [("gpu", ⟨2⟩), ("cpu", ⟨3⟩)] key = some v ∨
          lookupEntry [("cpu", ⟨5⟩), ("memory", ⟨8⟩)] key = some v) :=
  SetDefaults_Overhead_key_union .reversed .stored
    ⟨.present [("cpu", ⟨5⟩), ("memory", ⟨8⟩)], .present [("gpu", ⟨2⟩), ("cpu", ⟨3⟩)]⟩
    (by decide) (by decide)

/-- C18: defaulting brings in no request above its limit (each map holding a key
once): the keys whose request is above the limit afterwards are the keys that both
maps held with the request above the limit before, a key that one of the maps lacked
reads the same in both maps afterwards, and with `PodFixed` absent no key reads with
the request above the limit. -/
theorem SetDefaults_Overhead_no_new_conflict (first second : RangeOrder)
    (pf : ResourceRequirements) (wr : pf.Requests.WellFormed) (wl : pf.Limits.WellFormed) :
    (∃ d, SetDefaults_Overhead first second ⟨some pf⟩ = .ok ⟨some d⟩ ∧
      offendingKeys d = offendingKeys pf ∧
      (∀ key, (d.Limits.index key).value < (d.Requests.index key).value ↔
        requestExceedsLimit pf.Requests pf.Limits key = true) ∧
      (∀ key, pf.Requests.get key = none ∨ pf.Limits.get key = none →
        d.Requests.index key = d.Limits.index key)) ∧
    (∃ d, SetDefaults_Overhead first second ⟨none⟩ = .ok ⟨some d⟩ ∧
      offendingKeys d = ∅ ∧
      ∀ key, ¬ (d.Limits.index key).value < (d.Requests.index key).value) := by
  refine ⟨?_, ⟨.absent, .absent⟩, rfl, rfl, fun key => by simp [ResourceList.index,
    ResourceList.get, ResourceList.entries, lookupEntry]⟩
  obtain ⟨ls, rs, h, kr, kl, vr, vl⟩ := SetDefaults_Overhead_keys_values first second pf wr wl
  have gr : ∀ key, (ResourceList.present rs).get key =
      (pf.Requests.get key).or (pf.Limits.get key) := vr
  have gl : ∀ key, (ResourceList.present ls).get key =
      (pf.Limits.get key).or (pf.Requests.get key) := vl
  have same : ∀ key, requestExceedsLimit (.present rs) (.present ls) key =
      requestExceedsLimit pf.Requests pf.Limits key := by
    intro key
    simp only [requestExceedsLimit, gr key, gl key]
    cases pf.Requests.get key <;> cases pf.Limits.get key <;> simp
  refine ⟨⟨.present ls, .present rs⟩, h, ?_, ?_, ?_⟩
  · ext key
    simp only [offendingKeys, List.mem_toFinset, List.mem_filter, same key]
    constructor
    · rintro ⟨-, hx⟩
      refine ⟨?_, hx⟩
      have hs : (pf.Requests.get key).isSome = true := by
        simp only [requestExceedsLimit] at hx
        cases hq : pf.Requests.get key with
        | none => rw [hq] at hx; simp at hx
        | some q => rfl
      exact (lookupEntry_isSome_iff _ _).mp hs
    · rintro ⟨hk, hx⟩
      exact ⟨(kr key).mpr (Or.inl hk), hx⟩
  · intro key
    simp only [ResourceList.index, gr key, gl key, requestExceedsLimit]
    cases pf.Requests.get key <;> cases pf.Limits.get key <;> simp [Quantity.zero]
  · intro key hmiss
    simp only [ResourceList.index, gr key, gl key]
    rcases hmiss with hm | hm <;> rw [hm] <;> cases pf.Limits.get key <;>
      cases pf.Requests.get key <;> simp_all

theorem SetDefaults_Overhead_no_new_conflict_witness :
    (∃ d, SetDefaults_Overhead .stored .reversed
        ⟨some ⟨.present [("cpu", ⟨9⟩)], .present [("cpu", ⟨10⟩), ("memory", ⟨4⟩)]⟩⟩ =
          .ok ⟨some d⟩ ∧
      offendingKeys d = offendingKeys ⟨.present [("cpu", ⟨9⟩)],
        .present [("cpu", ⟨10⟩), ("memory", ⟨4⟩)]⟩ ∧
      (∀ key, (d.Limits.index key).value < (d.Requests.index key).value ↔
        requestExceedsLimit (.present [("cpu", ⟨10⟩), ("memory", ⟨4⟩)])
          (.present [("cpu", ⟨9⟩)]) key = true) ∧
      (∀ key, ResourceList.get (.present [("cpu", ⟨10⟩), ("memory", ⟨4⟩)]) key = none ∨
          ResourceList.get (.present [("cpu", ⟨9⟩)]) key = none →
        d.Requests.index key = d.Limits.index key)) ∧
    (∃ d, SetDefaults_Overhead .stored .reversed ⟨none⟩ = .ok ⟨some d⟩ ∧
      offendingKeys d = ∅ ∧
      ∀ key, ¬ (d.Limits.index key).value < (d.Requests.index key).value) :=
  SetDefaults_Overhead_no_new_conflict .stored .reversed
    ⟨.present [("cpu", ⟨9⟩)], .present [("cpu", ⟨10⟩), ("memory", ⟨4⟩)]⟩
    (by decide) (by decide)

/-! ## The list conversions -/

theorem convertItems_length {A B : Type} (convert : A → B → B × Option ConversionError)
    (items : List A) (slots : List B) :
    (convertItems convert items slots).1.length = slots.length := by
  induction items generalizing slots with
  | nil => cases slots <;> rfl
  | cons a items ih =>
    cases slots with
    | nil => rfl
    | cons b slots =>
      unfold convertItems
      cases hc : convert a b with
      | mk b2 err =>
        cases err with
        | some e => rfl
        | none =>
          have h := ih slots
          cases hr : convertItems convert items slots with
          | mk bs2 err2 =>
            rw [hr] at h
            simpa using h

/-- When every item converts into a fresh slot without error, the loop ends without
error. -/
theorem convertItems_ok {A B : Type} (convert : A → B → B × Option ConversionError)
    (zero : B) (items : List A) (hok : ∀ a ∈ items, (convert a zero).2 = none) :
    (convertItems convert items (List.replicate items.length zero)).2 = none := by
  induction items with
  | nil => rfl
  | cons a items ih =>
    have ha := hok a (List.mem_cons_self _ _)
    have hrest := ih fun x hx => hok x (List.mem_cons_of_mem _ hx)
    rw [List.length_cons, List.replicate_succ]
    unfold convertItems
    cases hc : convert a zero with
    | mk b2 err =>
      rw [hc] at ha
      simp only at ha
      subst ha
      cases hr : convertItems convert items (List.replicate items.length zero) with
      | mk bs2 err2 =>
        rw [hr] at hrest
        exact hrest

/-- The loop returns the error of the first item that fails. -/
theorem convertItems_first_error {A B : Type}
    (convert : A → B → B × Option ConversionError) (zero : B)
    (before : List A) (a : A) (after : List A) (e : ConversionError)
    (hok : ∀ x ∈ before, (convert x zero).2 = none) (hfail : (convert a zero).2 = some e) :
    (convertItems convert (before ++ a :: after)
      (List.replicate (before ++ a :: after).length zero)).2 = some e := by
  induction before with
  | nil =>
    rw [List.nil_append, List.length_cons, List.replicate_succ]
    unfold convertItems
    cases hc : convert a zero with
    | mk b2 err =>
      rw [hc] at hfail
      simp only at hfail
      subst hfail
      rfl
  | cons x before ih =>
    have hx := hok x (List.mem_cons_self _ _)
    have hrest := ih fun y hy => hok y (List.mem_cons_of_mem _ hy)
    rw [List.cons_append, List.length_cons, List.replicate_succ]
    unfold convertItems
    cases hc : convert x zero with
    | mk b2 err =>
      rw [hc] at hx
      simp only at hx
      subst hx
      cases hr : convertItems convert (before ++ a :: after)
          (List.replicate (before ++ a :: after).length zero) with
      | mk bs2 err2 =>
        rw [hr] at hrest
        exact hrest

theorem autoConvert_v1alpha1_RuntimeClassList_To_node_RuntimeClassList_spec {V : Type} 
    (convert : V → RuntimeClass → RuntimeClass × Option ConversionError)
    (inp : RuntimeClassList V) (out : RuntimeClassList RuntimeClass) :
    (autoConvert_v1alpha1_RuntimeClassList_To_node_RuntimeClassList convert inp out).1.ListMeta = inp.ListMeta ∧
    ((autoConvert_v1alpha1_RuntimeClassList_To_node_RuntimeClassList convert inp out).1.Items = none ↔ inp.Items = none) ∧
    (∀ items, inp.Items = some items →
      ∃ slots, (autoConvert_v1alpha1_RuntimeClassList_To_node_RuntimeClassList convert inp out).1.Items = some slots ∧ slots.length = items.length) ∧
    ((∀ items, inp.Items = some items → ∀ a ∈ items, (convert a RuntimeClass.zero).2 = none) →
      (autoConvert_v1alpha1_RuntimeClassList_To_node_RuntimeClassList convert inp out).2 = none) ∧
    (∀ before a after e, inp.Items = some (before ++ a :: after) →
      (∀ x ∈ before, (convert x RuntimeClass.zero).2 = none) → (convert a RuntimeClass.zero).2 = some e →
      (autoConvert_v1alpha1_RuntimeClassList_To_node_RuntimeClassList convert inp out).2 = some e) := by
  obtain ⟨listMeta, items⟩ := inp
  cases items with
  | none =>
    refine ⟨rfl, ⟨fun _ => rfl, fun _ => rfl⟩, ?_, fun _ => rfl, ?_⟩
    · intro items h
      cases h
    · intro before a after e h
      cases h
  | some items =>
    have hlen := convertItems_length convert items (List.replicate items.length RuntimeClass.zero)
    have hok := convertItems_ok convert RuntimeClass.zero items
    have hfail := fun before a after e => convertItems_first_error convert RuntimeClass.zero before a after e
    have hdef : autoConvert_v1alpha1_RuntimeClassList_To_node_RuntimeClassList convert ⟨listMeta, some items⟩ out =
        (⟨listMeta, some (convertItems convert items (List.replicate items.length RuntimeClass.zero)).1⟩,
          (convertItems convert items (List.replicate items.length RuntimeClass.zero)).2) := rfl
    rw [hdef]
    refine ⟨rfl, ⟨fun h => (by cases h), fun h => (by cases h)⟩, ?_, ?_, ?_⟩
    · intro items2 h
      injection h with h
      subst h
      exact ⟨_, rfl, by rw [hlen, List.length_replicate]⟩
    · intro h
      exact hok (h items rfl)
    · intro before a after e h h1 h2
      injection h with h
      subst h
      exact hfail before a after e h1 h2

theorem autoConvert_node_RuntimeClassList_To_v1alpha1_RuntimeClassList_spec {V : Type} (zero : V)
    (convert : RuntimeClass → V → V × Option ConversionError)
    (inp : RuntimeClassList RuntimeClass) (out : RuntimeClassList V) :
    (autoConvert_node_RuntimeClassList_To_v1alpha1_RuntimeClassList zero convert inp out).1.ListMeta = inp.ListMeta ∧
    ((autoConvert_node_RuntimeClassList_To_v1alpha1_RuntimeClassList zero convert inp out).1.Items = none ↔ inp.Items = none) ∧
    (∀ items, inp.Items = some items →
      ∃ slots, (autoConvert_node_RuntimeClassList_To_v1alpha1_RuntimeClassList zero convert inp out).1.Items = some slots ∧ slots.length = items.length) ∧
    ((∀ items, inp.Items = some items → ∀ a ∈ items, (convert a zero).2 = none) →
      (autoConvert_node_RuntimeClassList_To_v1alpha1_RuntimeClassList zero convert inp out).2 = none) ∧
    (∀ before a after e, inp.Items = some (before ++ a :: after) →
      (∀ x ∈ before, (convert x zero).2 = none) → (convert a zero).2 = some e →
      (autoConvert_node_RuntimeClassList_To_v1alpha1_RuntimeClassList zero convert inp out).2 = some e) := by
  obtain ⟨listMeta, items⟩ := inp
  cases items with
  | none =>
    refine ⟨rfl, ⟨fun _ => rfl, fun _ => rfl⟩, ?_, fun _ => rfl, ?_⟩
    · intro items h
      cases h
    · intro before a after e h
      cases h
  | some items =>
    have hlen := convertItems_length convert items (List.replicate items.length zero)
    have hok := convertItems_ok convert zero items
    have hfail := fun before a after e => convertItems_first_error convert zero before a after e
    have hdef : autoConvert_node_RuntimeClassList_To_v1alpha1_RuntimeClassList zero convert ⟨listMeta, some items⟩ out =
        (⟨listMeta, some (convertItems convert items (List.replicate items.length zero)).1⟩,
          (convertItems convert items (List.replicate items.length zero)).2) := rfl
    rw [hdef]
    refine ⟨rfl, ⟨fun h => (by cases h), fun h => (by cases h)⟩, ?_, ?_, ?_⟩
    · intro items2 h
      injection h with h
      subst h
      exact ⟨_, rfl, by rw [hlen, List.length_replicate]⟩
    · intro h
      exact hok (h items rfl)
    · intro before a after e h h1 h2
      injection h with h
      subst h
      exact hfail before a after e h1 h2

/-- C19: both list conversions copy `ListMeta`, leave `out.Items` nil exactly when
`in.Items` is nil and otherwise give it the length of `in.Items` (an empty slice stays
an empty slice); they return no error when every item converts, and the error of the
first item that fails otherwise. -/
theorem RuntimeClassList_conversions {V : Type} (zero : V)
    (toNode : V → RuntimeClass → RuntimeClass × Option ConversionError)
    (toV1alpha1 : RuntimeClass → V → V × Option ConversionError)
    (inpV : RuntimeClassList V) (outNode : RuntimeClassList RuntimeClass)
    (inpNode : RuntimeClassList RuntimeClass) (outV : RuntimeClassList V) :
    ((autoConvert_v1alpha1_RuntimeClassList_To_node_RuntimeClassList toNode inpV outNode).1.ListMeta = inpV.ListMeta ∧
      ((autoConvert_v1alpha1_RuntimeClassList_To_node_RuntimeClassList toNode inpV outNode).1.Items = none ↔ inpV.Items = none) ∧
      (∀ items, inpV.Items = some items →
        ∃ slots, (autoConvert_v1alpha1_RuntimeClassList_To_node_RuntimeClassList toNode inpV outNode).1.Items = some slots ∧
          slots.length = items.length) ∧
      ((∀ items, inpV.Items = some items → ∀ a ∈ items, (toNode a RuntimeClass.zero).2 = none) →
        (autoConvert_v1alpha1_RuntimeClassList_To_node_RuntimeClassList toNode inpV outNode).2 = none) ∧
      (∀ before a after e, inpV.Items = some (before ++ a :: after) →
        (∀ x ∈ before, (toNode x RuntimeClass.zero).2 = none) → (toNode a RuntimeClass.zero).2 = some e →
        (autoConvert_v1alpha1_RuntimeClassList_To_node_RuntimeClassList toNode inpV outNode).2 = some e)) ∧
    ((autoConvert_node_RuntimeClassList_To_v1alpha1_RuntimeClassList zero toV1alpha1 inpNode outV).1.ListMeta = inpNode.ListMeta ∧
      ((autoConvert_node_RuntimeClassList_To_v1alpha1_RuntimeClassList zero toV1alpha1 inpNode outV).1.Items = none ↔ inpNode.Items = none) ∧
      (∀ items, inpNode.Items = some items →
        ∃ slots, (autoConvert_node_RuntimeClassList_To_v1alpha1_RuntimeClassList zero toV1alpha1 inpNode outV).1.Items = some slots ∧
          slots.length = items.length) ∧
      ((∀ items, inpNode.Items = some items → ∀ a ∈ items, (toV1alpha1 a zero).2 = none) →
        (autoConvert_node_RuntimeClassList_To_v1alpha1_RuntimeClassList zero toV1alpha1 inpNode outV).2 = none) ∧
      (∀ before a after e, inpNode.Items = some (before ++ a :: after) →
        (∀ x ∈ before, (toV1alpha1 x zero).2 = none) → (toV1alpha1 a zero).2 = some e →
        (autoConvert_node_RuntimeClassList_To_v1alpha1_RuntimeClassList zero toV1alpha1 inpNode outV).2 = some e)) :=
  ⟨autoConvert_v1alpha1_RuntimeClassList_To_node_RuntimeClassList_spec toNode inpV outNode,
    autoConvert_node_RuntimeClassList_To_v1alpha1_RuntimeClassList_spec zero toV1alpha1
      inpNode outV⟩

theorem RuntimeClassList_conversions_witness :
    (autoConvert_v1alpha1_RuntimeClassList_To_node_RuntimeClassList handlerToNode
        ⟨⟨"", "7", ""⟩, some ["runc", "kata"]⟩ ⟨⟨"", "", ""⟩, none⟩).2 = none ∧
    (autoConvert_v1alpha1_RuntimeClassList_To_node_RuntimeClassList handlerToNode
        ⟨⟨"", "7", ""⟩, some (["runc"] ++ "" :: ["kata"])⟩ ⟨⟨"", "", ""⟩, none⟩).2 =
      some "empty handler" ∧
    (autoConvert_node_RuntimeClassList_To_v1alpha1_RuntimeClassList "" nodeToHandler
        ⟨⟨"", "7", ""⟩, some [⟨⟨"a", "", "1", []⟩, "runc", none⟩]⟩ ⟨⟨"", "", ""⟩, none⟩).2 =
      none := by
  refine ⟨?_, ?_, ?_⟩
  · refine (RuntimeClassList_conversions "" handlerToNode nodeToHandler
      ⟨⟨"", "7", ""⟩, some ["runc", "kata"]⟩ ⟨⟨"", "", ""⟩, none⟩
      ⟨⟨"", "7", ""⟩, none⟩ ⟨⟨"", "", ""⟩, none⟩).1.2.2.2.1 ?_
    intro items h
    injection h with h
    subst h
    decide
  · refine (RuntimeClassList_conversions "" handlerToNode nodeToHandler
      ⟨⟨"", "7", ""⟩, some (["runc"] ++ "" :: ["kata"])⟩ ⟨⟨"", "", ""⟩, none⟩
      ⟨⟨"", "7", ""⟩, none⟩ ⟨⟨"", "", ""⟩, none⟩).1.2.2.2.2
        ["runc"] "" ["kata"] "empty handler" rfl ?_ ?_
    · decide
    · decide
  · refine (RuntimeClassList_conversions "" handlerToNode nodeToHandler
      ⟨⟨"", "7", ""⟩, none⟩ ⟨⟨"", "", ""⟩, none⟩
      ⟨⟨"", "7", ""⟩, some [⟨⟨"a", "", "1", []⟩, "runc", none⟩]⟩
      ⟨⟨"", "", ""⟩, none⟩).2.2.2.2.1 ?_
    intro items h
    injection h with h
    subst h
    decide

end NodeOverhead
